import Mathlib

/-!
Verification of the motick-moto-scr listing pipeline.

Shallow embedding of the numeric text parsers, the batch cleaner, the Z900
validator and the deal scorer, translated from:
  src/rentabilidad_calculator.py, src/limpiador_integrado.py,
  src/scrapers/scraper_z900.py, src/config.py.
Python floats are modelled as exact rationals (every float built by this code
is a finite decimal), missing values (NaN / absent field) as Option, and
machine ints as Nat.  Rationals are built with mkRat so that concrete runs
reduce inside the kernel.
-/

/-- Digit value of an ASCII digit character. -/
def digitVal (c : Char) : ℕ := c.toNat - '0'.toNat

/-- Numeric value of a list of decimal digit characters (Python `int` of a digit run). -/
def natOfDigits (l : List Char) : ℕ := l.foldl (fun a c => 10 * a + digitVal c) 0

/-- Characters kept by the shared price/mileage cleaning step
`re.sub(r'[^0-9,.]', '', s)`: digits, dots and commas. -/
def keepNumChar (c : Char) : Bool := c.isDigit || c = '.' || c = ','

/-- `re.sub(r'[^0-9,.]', '', s)` on a character list. -/
def cleanNum (l : List Char) : List Char := l.filter keepNumChar

/-- Remove every occurrence of a character (Python `str.replace(c, '')`). -/
def removeChar (c : Char) (l : List Char) : List Char := l.filter (fun x => x ≠ c)

/-- Python `str.replace(',', '.')` on a character list. -/
def commaToDot (l : List Char) : List Char :=
  l.map (fun c => if c = ',' then '.' else c)

/-- Python `str.split(sep)` on a character list; always returns at least one group. -/
def splitOnChar (sep : Char) : List Char → List (List Char)
  | [] => [[]]
  | c :: cs =>
    match splitOnChar sep cs with
    | [] => [[c]]
    | g :: gs => if c = sep then [] :: g :: gs else (c :: g) :: gs

/-- Value of `float` on a whole part `w` (maximal leading digit run) and the
rest `r` of the string. -/
def pyFloatAux (w r : List Char) : Option ℚ :=
  match r with
  | [] => if w.isEmpty then none else some (mkRat (natOfDigits w) 1)
  | '.' :: f =>
    if f.all Char.isDigit ∧ ¬(w.isEmpty ∧ f.isEmpty) then
      some (mkRat (natOfDigits w * 10 ^ f.length + natOfDigits f) (10 ^ f.length))
    else none
  | _ => none

/-- Python `float(s)` for the strings this code builds (decimal digits around at
most one dot): `none` models a raised `ValueError`.  Such a string parses iff it
contains at least one digit. -/
def pyFloat (l : List Char) : Option ℚ :=
  pyFloatAux (l.takeWhile Char.isDigit) (l.dropWhile Char.isDigit)

/-- First maximal digit run of a string, `re.findall(r'\d+', s)[0]`
(`none` when the string has no digit). -/
def firstDigitRun : List Char → Option (List Char)
  | [] => none
  | c :: cs =>
    if c.isDigit then some (c :: cs.takeWhile Char.isDigit)
    else firstDigitRun cs

/-- Fallback of the cleaner's extractors: value of the first digit run, else 0. -/
def firstNumberOr0 (l : List Char) : ℚ :=
  match firstDigitRun l with
  | some ds => mkRat (natOfDigits ds) 1
  | none => 0

/-- Core of `RentabilidadCalculator._extract_price` on the cleaned character
list.  A `float` call that would raise lands in the `except` branch, value 0.0,
modelled by `Option.getD 0`. -/
def extract_price_chars (c : List Char) : ℚ :=
  if c = [] then 0
  else if ',' ∈ c ∧ '.' ∈ c then
    -- both separators: Spanish format when the comma splits off a ≤2-char tail
    let parts := splitOnChar ',' c
    if parts.length = 2 ∧ (parts.getD 1 []).length ≤ 2 then
      (pyFloat (removeChar '.' (parts.getD 0 []) ++ '.' :: parts.getD 1 [])).getD 0
    else (pyFloat (removeChar ',' (removeChar '.' c))).getD 0
  else if ',' ∈ c then
    if c.count ',' = 1 ∧ ((splitOnChar ',' c).getD 1 []).length ≤ 2 then
      (pyFloat (commaToDot c)).getD 0
    else (pyFloat (removeChar ',' c)).getD 0
  else if '.' ∈ c then
    if c.count '.' = 1 ∧ ((splitOnChar '.' c).getD 1 []).length ≤ 2 then
      (pyFloat c).getD 0
    else (pyFloat (removeChar '.' c)).getD 0
  else (pyFloat c).getD 0

/-- `RentabilidadCalculator._extract_price` (deal scorer's price parser);
`none` models a NaN cell. -/
def extract_price (t : Option String) : ℚ :=
  match t with
  | none => 0
  | some s => if s = "" then 0 else extract_price_chars (cleanNum s.toList)

/-- Core of `LimpiadorIntegrado._extract_price_number` on the cleaned character
list.  The structure mirrors the Python `if/elif` chain: a branch whose inner
test fails falls through to the final `re.findall(r'\d+', ...)` fallback, while
a `float` call that raises is caught by the enclosing `try` and yields 0.0. -/
def extract_price_number_chars (c : List Char) : ℚ :=
  if c = [] then 0
  else if '.' ∈ c ∧ ',' ∈ c then
    let parts := splitOnChar ',' c
    if parts.length = 2 ∧ (parts.getD 1 []).length ≤ 2 then
      (pyFloat (removeChar '.' (parts.getD 0 []) ++ '.' :: parts.getD 1 [])).getD 0
    else (pyFloat (removeChar ',' (removeChar '.' c))).getD 0
  else if '.' ∈ c ∧ c.count '.' = 1 then
    if ((splitOnChar '.' c).getD 1 []).length ≤ 2 then
      (pyFloat c).getD 0
    else (pyFloat (removeChar '.' c)).getD 0
  else if ',' ∈ c ∧ c.count ',' = 1 then
    if ((splitOnChar ',' c).getD 1 []).length ≤ 2 then
      (pyFloat (commaToDot c)).getD 0
    else firstNumberOr0 c
  else if c.all Char.isDigit then
    (pyFloat c).getD 0
  else if '.' ∈ c then
    let ns := removeChar '.' c
    if ns ≠ [] ∧ ns.all Char.isDigit then (pyFloat ns).getD 0
    else firstNumberOr0 c
  else firstNumberOr0 c

/-- `LimpiadorIntegrado._extract_price_number` (cleaner's price parser). -/
def extract_price_number (t : Option String) : ℚ :=
  match t with
  | none => 0
  | some s => if s = "" then 0 else extract_price_number_chars (cleanNum s.toList)

/-- `LimpiadorIntegrado._extract_km_number` on the cleaned character list.
Sequential `if` blocks (not `elif`): a block whose inner test fails falls
through to the next; a raising `float` lands in the `except`, value 0.0. -/
def extract_km_number_chars (c : List Char) : ℚ :=
  if c = [] then 0
  else if ',' ∈ c ∧ c.count ',' = 1 ∧ ((splitOnChar ',' c).getD 1 []).length ≤ 2 then
    (pyFloat (commaToDot c)).getD 0
  else if '.' ∈ c ∧ c.count '.' = 1 then
    if ((splitOnChar '.' c).getD 1 []).length ≤ 2 then
      (pyFloat c).getD 0
    else (pyFloat (removeChar '.' c)).getD 0
  else if c.all Char.isDigit then
    (pyFloat c).getD 0
  else firstNumberOr0 c

/-- `LimpiadorIntegrado._extract_km_number`. -/
def extract_km_number (t : Option String) : ℚ :=
  match t with
  | none => 0
  | some s => if s = "" then 0 else extract_km_number_chars (cleanNum s.toList)

/-- A string with no digit character anywhere (arbitrary garbage for the
price parsers). -/
def hasNoDigit (s : String) : Bool := s.toList.all (fun c => ¬ c.isDigit)

/-- Python `str.lower()` on a character list (inputs here are ASCII). -/
def toLowerChars (l : List Char) : List Char := l.map Char.toLower

/-- Occurrence of `sub` at some position of `s` (helper for the Python `in` test). -/
def containsSubAux (sub : List Char) : List Char → Bool
  | [] => sub.isEmpty
  | c :: cs => sub.isPrefixOf (c :: cs) || containsSubAux sub cs

/-- Python `sub in s` substring test on character lists. -/
def containsSub (s : List Char) (sub : String) : Bool := containsSubAux sub.toList s

/-- The five supported model keys of `MODELOS_CONFIG` (src/config.py). -/
inductive ModeloKey where
  | cb125r | pcx125 | agility125 | z900 | mt07
deriving DecidableEq, Repr

/-- `MODELOS_CONFIG[key]["nombre"]`. -/
def nombre : ModeloKey → String
  | .cb125r => "Honda CB125R"
  | .pcx125 => "Honda PCX125"
  | .agility125 => "Kymco Agility125"
  | .z900 => "Kawasaki Z900"
  | .mt07 => "Yamaha MT-07"

/-- `MODELOS_CONFIG[key]["precio_min"]`. -/
def precio_min : ModeloKey → ℕ
  | .cb125r => 1000
  | .pcx125 => 1200
  | .agility125 => 800
  | .z900 => 4500
  | .mt07 => 3000

/-- `MODELOS_CONFIG[key]["precio_max"]`. -/
def precio_max : ModeloKey → ℕ
  | .cb125r => 4500
  | .pcx125 => 4000
  | .agility125 => 3000
  | .z900 => 9000
  | .mt07 => 7500

/-- `MODELOS_CONFIG[key]["año_min"]`. -/
def anio_min : ModeloKey → ℕ
  | .cb125r => 2018
  | .pcx125 => 2016
  | .agility125 => 2014
  | .z900 => 2017
  | .mt07 => 2014

/-- `MODELOS_CONFIG[key]["año_max"]` (2025 for every model). -/
def anio_max : ModeloKey → ℕ := fun _ => 2025

/-- `MODELOS_CONFIG[key]["km_max"]`. -/
def km_max : ModeloKey → ℚ
  | .cb125r => 25000
  | .pcx125 => 30000
  | .agility125 => 35000
  | .z900 => 30000
  | .mt07 => 40000

/-- `LIMPIEZA_CONFIG["filtros"]["precio_minimo_global"]`. -/
def precio_minimo_global : ℚ := 500

/-- `LIMPIEZA_CONFIG["islas_spain"]`. -/
def islas_spain : List String :=
  ["canarias", "tenerife", "gran canaria", "fuerteventura", "lanzarote",
   "la palma", "la gomera", "el hierro", "baleares", "mallorca", "menorca",
   "ibiza", "formentera", "palma", "ceuta", "melilla", "palma de mallorca"]

/-- `LIMPIEZA_CONFIG["comerciales_keywords"]`. -/
def comerciales_keywords : List String :=
  ["concesionario", "profesional", "empresa", "dealer", "financiacion",
   "garantia", "taller", "motor", "automocion", "vehiculos", "mundimoto",
   "s.l.", "sl", "s.a.", "sa", "sociedad", "cia", "ltd"]

/-- `LimpiadorIntegrado._determine_model_min_price`: model-specific price floor,
picked by substring checks against the lowercased display name. -/
def determine_model_min_price (m : ModeloKey) : ℚ :=
  let lower := toLowerChars (nombre m).toList
  if ["agility", "pcx"].any (containsSub lower) then 600
  else if ["z900", "mt-07", "mt07"].any (containsSub lower) then 2500
  else if ["125", "cb125r"].any (containsSub lower) then 1000
  else max ((precio_min m : ℚ)) precio_minimo_global

/-- Token of the tiny regex engine: exactly the constructs used by the
patterns in `LimpiadorIntegrado._is_commercial` and `ScraperZ900`:
word boundary, literal character, and a character class repeated between
`lo` and `hi` times (`hi = none` for an unbounded `*`/`+`). -/
inductive RTok where
  | bnd : RTok
  | lit : Char → RTok
  | cls : (Char → Bool) → ℕ → Option ℕ → RTok

/-- Python regex word character (ASCII fragment of `\w`). -/
def isWordChar (c : Char) : Bool := c.isAlphanum || c = '_'

/-- Wordness of an optional character (text edge counts as non-word). -/
def wordAt : Option Char → Bool
  | some c => isWordChar c
  | none => false

/-- `\b`: the previous and next characters differ in wordness. -/
def atBoundary (prev next : Option Char) : Bool := wordAt prev != wordAt next

/-- Match a token list at the start of `s`, where `prev` is the character just
before `s` in the full text.  Each step consumes a character or a token, so the
lexicographic measure on (input, tokens) falls; `fuel` is a structural bound
large enough that the 0 case is never reached for the fuel picked below. -/
def matchToks : ℕ → List RTok → Option Char → List Char → Bool
  | 0, _, _, _ => false
  | _ + 1, [], _, _ => true
  | fuel + 1, RTok.bnd :: ts, prev, s => atBoundary prev s.head? && matchToks fuel ts prev s
  | fuel + 1, RTok.lit c :: ts, _, s =>
    match s with
    | [] => false
    | x :: s2 => (x == c) && matchToks fuel ts (some x) s2
  | fuel + 1, RTok.cls p lo hi :: ts, prev, s =>
    if lo = 0 then
      matchToks fuel ts prev s ||
      (if hi = some 0 then false
       else
         match s with
         | [] => false
         | x :: s2 => p x && matchToks fuel (RTok.cls p 0 (hi.map (fun n => n - 1)) :: ts) (some x) s2)
    else
      match s with
      | [] => false
      | x :: s2 => p x && matchToks fuel (RTok.cls p (lo - 1) (hi.map (fun n => n - 1)) :: ts) (some x) s2

/-- `re.search`: try to match at every start position, left to right. -/
def reSearchAux (ts : List RTok) : Option Char → List Char → Bool
  | prev, [] => matchToks (ts.length + 2) ts prev []
  | prev, x :: s2 =>
    matchToks ((s2.length + 2) * (ts.length + 1) + 1) ts prev (x :: s2) ||
    reSearchAux ts (some x) s2

/-- `re.search(pattern, s) is not None`. -/
def reSearch (ts : List RTok) (s : List Char) : Bool := reSearchAux ts none s

/-- Literal characters of a word as tokens. -/
def litToks (w : String) : List RTok := w.toList.map RTok.lit

/-- `\b<word>\b`. -/
def wordPat (w : String) : List RTok := [RTok.bnd] ++ litToks w ++ [RTok.bnd]

/-- `c?`. -/
def optChar (c : Char) : RTok := RTok.cls (fun x => x == c) 0 (some 1)

/-- `[..]*`. -/
def starCls (p : Char → Bool) : RTok := RTok.cls p 0 none

/-- `[\-\s]` character class. -/
def dashSpace (c : Char) : Bool := c == '-' || c.isWhitespace

/-- `\bS\.?L\.?\b` (as in the source, uppercase even though it is searched in
lowercased text, so it can never fire there). -/
def pat_SL : List RTok := [RTok.bnd, RTok.lit 'S', optChar '.', RTok.lit 'L', optChar '.', RTok.bnd]

/-- `\bS\.?A\.?\b`. -/
def pat_SA : List RTok := [RTok.bnd, RTok.lit 'S', optChar '.', RTok.lit 'A', optChar '.', RTok.bnd]

/-- `\bLtd\.?\b`. -/
def pat_Ltd : List RTok := [RTok.bnd, RTok.lit 'L', RTok.lit 't', RTok.lit 'd', optChar '.', RTok.bnd]

/-- `\b\d{2,3}[\-\s]*\d{3}[\-\s]*\d{3}\b` (business phone numbers). -/
def pat_phone : List RTok :=
  [RTok.bnd, RTok.cls Char.isDigit 2 (some 3), starCls dashSpace,
   RTok.cls Char.isDigit 3 (some 3), starCls dashSpace,
   RTok.cls Char.isDigit 3 (some 3), RTok.bnd]

/-- `@` (emails). -/
def pat_at : List RTok := [RTok.lit '@']

/-- `commercial_patterns` of `LimpiadorIntegrado._is_commercial`. -/
def commercial_patterns : List (List RTok) := [pat_SL, pat_SA, pat_Ltd, pat_phone, pat_at]

/-- `LimpiadorIntegrado._is_commercial`. -/
def is_commercial (t : Option String) : Bool :=
  match t with
  | none => false
  | some s =>
    if s = "" then false
    else
      let lower := toLowerChars s.toList
      comerciales_keywords.any (containsSub lower) ||
        commercial_patterns.any (fun p => reSearch p lower)

/-- `LimpiadorIntegrado._is_island_location`. -/
def is_island_location (t : Option String) : Bool :=
  match t with
  | none => false
  | some s =>
    if s = "" then false
    else islas_spain.any (containsSub (toLowerChars s.toList))

/-- `LimpiadorIntegrado._is_valid_price`: price text present and its parsed
value at least the model floor. -/
def is_valid_price (minPrice : ℚ) (t : Option String) : Bool :=
  match t with
  | none => false
  | some s => if s = "" then false else decide (minPrice ≤ extract_price_number (some s))

/-- `LimpiadorIntegrado._is_valid_km`: missing mileage is accepted, otherwise
the parsed value must not exceed the ceiling. -/
def is_valid_km (maxKm : ℚ) (t : Option String) : Bool :=
  match t with
  | none => true
  | some s => if s = "" then true else decide (extract_km_number (some s) ≤ maxKm)

/-- One scraped row as consumed by `LimpiadorIntegrado.clean_data`: the columns
every scraper emits; `none` models a NaN cell. -/
structure MotoRecord where
  titulo : Option String
  precio : Option String
  kilometraje : Option String
  vendedor : Option String
  ubicacion : Option String
  url : Option String
deriving DecidableEq, Repr

/-- `df.drop_duplicates(subset=['URL'], keep='first')` with the set of already
seen keys accumulated on the left.  pandas treats two NaN keys as duplicates,
matched here by comparing `Option` values. -/
def dedupURLAux (seen : List (Option String)) : List MotoRecord → List MotoRecord
  | [] => []
  | r :: rs =>
    if r.url ∈ seen then dedupURLAux seen rs
    else r :: dedupURLAux (r.url :: seen) rs

/-- Step 1 of `clean_data`: drop duplicate URLs, keep the first occurrence. -/
def dedupURL (l : List MotoRecord) : List MotoRecord := dedupURLAux [] l

/-- The five drop rules of `clean_data`, in their source order. -/
inductive CleanRule where
  | dup | price | commercial | island | km
deriving DecidableEq, Repr

/-- Per-record predicate of each boolean filter rule (all but `dup`). -/
def rulePred (m : ModeloKey) : CleanRule → MotoRecord → Bool
  | .dup, _ => true
  | .price, r => is_valid_price (determine_model_min_price m) r.precio
  | .commercial, r => ! is_commercial r.vendedor
  | .island, r => ! is_island_location r.ubicacion
  | .km, r => is_valid_km (km_max m) r.kilometraje

/-- One step of `clean_data`. -/
def applyRule (m : ModeloKey) : CleanRule → List MotoRecord → List MotoRecord
  | .dup, l => dedupURL l
  | c, l => l.filter (rulePred m c)

/-- A sequence of `clean_data` steps, applied left to right. -/
def applyRules (m : ModeloKey) (rs : List CleanRule) (l : List MotoRecord) : List MotoRecord :=
  rs.foldl (fun acc r => applyRule m r acc) l

/-- `LimpiadorIntegrado.clean_data` on the record list (all columns present,
all `LIMPIEZA_CONFIG` switches on, as configured): dedup, then the price,
commercial, island and mileage filters, in the source order. -/
def clean_data (m : ModeloKey) (l : List MotoRecord) : List MotoRecord :=
  applyRules m [.dup, .price, .commercial, .island, .km] l

/-- Per-rule removal counts of `clean_data` (the stats dict entries
`eliminados_duplicados/precio/comercial/isla/km`), attributed in source order. -/
def clean_stats (m : ModeloKey) (l : List MotoRecord) : List ℕ :=
  let d := applyRule m .dup l
  let p := applyRule m .price d
  let c := applyRule m .commercial p
  let i := applyRule m .island c
  let k := applyRule m .km i
  [l.length - d.length, d.length - p.length, p.length - c.length,
   c.length - i.length, i.length - k.length]

/-- Series max of `RentabilidadCalculator` score normalization (0 for an empty
series, which the callers guard). -/
def listMax : List ℚ → ℚ
  | [] => 0
  | x :: xs => xs.foldl (fun a b => if a ≤ b then b else a) x

/-- Series min. -/
def listMin : List ℚ → ℚ
  | [] => 0
  | x :: xs => xs.foldl (fun a b => if b ≤ a then b else a) x

/-- pandas `Series.clip(0, hi)` pointwise. -/
def clipTo (hi v : ℚ) : ℚ := if v ≤ 0 then 0 else if hi ≤ v then hi else v

/-- `RentabilidadCalculator._calculate_price_score`: inverse min-max
normalization to [0,10]; the constant `precio_max_score = 10` branch fires for
an empty or an all-equal series. -/
def price_scores (xs : List ℚ) : List ℚ :=
  if xs.isEmpty ∨ listMax xs = listMin xs then List.replicate xs.length 10
  else xs.map (fun x => clipTo 10 (10 * (listMax xs - x) / (listMax xs - listMin xs)))

/-- `RentabilidadCalculator._calculate_km_score`: same inverse formula. -/
def km_scores (xs : List ℚ) : List ℚ :=
  if xs.isEmpty ∨ listMax xs = listMin xs then List.replicate xs.length 10
  else xs.map (fun x => clipTo 10 (10 * (listMax xs - x) / (listMax xs - listMin xs)))

/-- `RentabilidadCalculator._calculate_year_score`: direct min-max formula. -/
def year_scores (xs : List ℚ) : List ℚ :=
  if xs.isEmpty ∨ listMax xs = listMin xs then List.replicate xs.length 10
  else xs.map (fun x => clipTo 10 (10 * (x - listMin xs) / (listMax xs - listMin xs)))

/-- `RENTABILIDAD_CONFIG["pesos"]["precio"]` = 0.40. -/
def peso_precio : ℚ := mkRat 2 5

/-- `RENTABILIDAD_CONFIG["pesos"]["kilometraje"]` = 0.35. -/
def peso_km : ℚ := mkRat 7 20

/-- `RENTABILIDAD_CONFIG["pesos"]["año"]` = 0.25. -/
def peso_anio : ℚ := mkRat 1 4

/-- `Rentabilidad_Score`: weighted sum of the three per-field scores. -/
def composite_scores : List ℚ → List ℚ → List ℚ → List ℚ
  | p :: ps, k :: ks, y :: ys =>
    (peso_precio * p + peso_km * k + peso_anio * y) :: composite_scores ps ks ys
  | _, _, _ => []

/-- Composite scores of a batch of (price, km, year) rows with valid numerics. -/
def composite_of (rows : List (ℚ × ℚ × ℚ)) : List ℚ :=
  composite_scores (price_scores (rows.map (fun r => r.1)))
    (km_scores (rows.map (fun r => r.2.1)))
    (year_scores (rows.map (fun r => r.2.2)))

/-- `RentabilidadCalculator._get_rentabilidad_category`: percentage of
`max_score = sum(normalizacion.values()) = 10 + 10 + 10`. -/
def get_rentabilidad_category (score : ℚ) : String :=
  let max_score : ℚ := 10 + 10 + 10
  let porcentaje : ℚ := score / max_score * 100
  if 80 ≤ porcentaje then " Excelente"
  else if 65 ≤ porcentaje then " Muy Buena"
  else if 50 ≤ porcentaje then " Buena"
  else if 35 ≤ porcentaje then " Regular"
  else if 20 ≤ porcentaje then " Baja"
  else " Muy Baja"

/-- Category mapping exactly as the specification states it: percentage of the
max possible composite score 10, thresholds 85/70/55/40/25 (for comparison with
the source's mapping). -/
def rent_category_claimed (score : ℚ) : String :=
  let porcentaje : ℚ := score / 10 * 100
  if 85 ≤ porcentaje then " Excelente"
  else if 70 ≤ porcentaje then " Muy Buena"
  else if 55 ≤ porcentaje then " Buena"
  else if 40 ≤ porcentaje then " Regular"
  else if 25 ≤ porcentaje then " Baja"
  else " Muy Baja"

/-- Amended category mapping: absolute composite thresholds equivalent to the
source's percentage-of-30 thresholds (80% of 30 = 24, 65% = 19.5, 50% = 15,
35% = 10.5, 20% = 6). -/
def rent_category_amended (score : ℚ) : String :=
  if 24 ≤ score then " Excelente"
  else if 39 / 2 ≤ score then " Muy Buena"
  else if 15 ≤ score then " Buena"
  else if 21 / 2 ≤ score then " Regular"
  else if 6 ≤ score then " Baja"
  else " Muy Baja"

/-- Stable ascending comparison on row indices: by key, ties by index.  A
stable argsort of the key series sorts indices exactly by this relation. -/
def qleLex (keys : List ℚ) (i j : ℕ) : Prop :=
  keys.getD i 0 < keys.getD j 0 ∨ (keys.getD i 0 = keys.getD j 0 ∧ i ≤ j)

instance qleLexDecidable (keys : List ℚ) : DecidableRel (qleLex keys) := fun i j => by
  unfold qleLex
  infer_instance

/-- numpy's stable ascending argsort of the score column (the
`non_nans.argsort(kind=kind)` step inside `pandas.core.sorting.nargsort`;
numpy's default sort is insertion sort — stable — for the batch sizes the
tie-order question is about). -/
def argsortAsc (keys : List ℚ) : List ℕ :=
  List.insertionSort (qleLex keys) (List.range keys.length)

/-- `sort_values('Rentabilidad_Score', ascending=False)` row order: pandas
`nargsort` computes the ascending argsort and then reverses it
(`indexer = indexer[::-1]`). -/
def argsortDesc (keys : List ℚ) : List ℕ := (argsortAsc keys).reverse

/-- Row order produced by `calculate_rentabilidad` for a batch of rows with
valid (price, km, year) numerics: descending by composite score. -/
def rentabilidad_ranking (rows : List (ℚ × ℚ × ℚ)) : List ℕ :=
  argsortDesc (composite_of rows)

/-- Python `str.strip()`. -/
def trimChars (l : List Char) : List Char :=
  ((l.dropWhile Char.isWhitespace).reverse.dropWhile Char.isWhitespace).reverse

/-- First (leftmost) match of `re.search(r'(19|20)\d{2}', s)`, as a number. -/
def firstYearToken : List Char → Option ℕ
  | c0 :: c1 :: c2 :: c3 :: rest =>
    if ((c0 = '1' ∧ c1 = '9') ∨ (c0 = '2' ∧ c1 = '0')) ∧ c2.isDigit ∧ c3.isDigit then
      some (natOfDigits [c0, c1, c2, c3])
    else firstYearToken (c1 :: c2 :: c3 :: rest)
  | _ => none

/-- `RentabilidadCalculator._extract_year`, parameterized by
`datetime.now().year`: first `(19|20)\d{2}` token, accepted only inside
`[1990, current_year + 1]`; 0 is the no-year sentinel. -/
def extract_year (currentYear : ℕ) (t : Option String) : ℕ :=
  match t with
  | none => 0
  | some s =>
    if s = "" then 0
    else
      match firstYearToken (trimChars s.toList) with
      | some y => if 1990 ≤ y ∧ y ≤ currentYear + 1 then y else 0
      | none => 0

/-- `\s*`. -/
def spaceStar : RTok := starCls Char.isWhitespace

/-- `\bz[\-\s]*<digits>\b` (shape shared by several Z-model patterns). -/
def zGapPat (digits : String) : List RTok :=
  [RTok.bnd, RTok.lit 'z', starCls dashSpace] ++ litToks digits ++ [RTok.bnd]

/-- `ScraperZ900.model_patterns`. -/
def z900_model_patterns : List (List RTok) :=
  [zGapPat "900",
   [RTok.bnd, RTok.lit 'z', spaceStar] ++ litToks "900" ++ [RTok.bnd],
   [RTok.bnd, RTok.lit 'z', spaceStar,
    RTok.cls (fun c => c == '-' || c == '.' || c == '/') 1 (some 1), spaceStar] ++
     litToks "900" ++ [RTok.bnd],
   [RTok.bnd, RTok.lit 'z', starCls dashSpace, RTok.lit '9', starCls dashSpace,
    RTok.lit '0', starCls dashSpace, RTok.lit '0', RTok.bnd],
   [RTok.bnd] ++ litToks "z900" ++ [starCls dashSpace] ++ litToks "rs" ++ [RTok.bnd],
   [RTok.bnd] ++ litToks "z900" ++ [starCls dashSpace] ++ litToks "e" ++ [RTok.bnd]]

/-- `ScraperZ900.exclude_patterns`. -/
def z900_exclude_patterns : List (List RTok) :=
  [zGapPat "800", zGapPat "650", zGapPat "1000", zGapPat "300", zGapPat "250",
   [RTok.bnd, RTok.lit 'z', RTok.lit 'x', starCls dashSpace,
    RTok.cls Char.isDigit 1 none, RTok.bnd],
   [RTok.bnd, RTok.lit 'e', RTok.lit 'r', starCls dashSpace, RTok.lit '6', RTok.bnd],
   wordPat "ninja"]

/-- Brand patterns of `ScraperZ900._is_kawasaki_brand`. -/
def kawasaki_patterns : List (List RTok) :=
  [wordPat "kawasaki", wordPat "kawa", wordPat "kawasaky"]

/-- Z900 fallback patterns of `_is_kawasaki_brand` (Z900 implies Kawasaki). -/
def z900_brand_patterns : List (List RTok) :=
  [zGapPat "900", [RTok.bnd, RTok.lit 'z', spaceStar] ++ litToks "900" ++ [RTok.bnd]]

/-- `ScraperZ900._is_kawasaki_brand`. -/
def is_kawasaki_brand (text : List Char) : Bool :=
  kawasaki_patterns.any (fun p => reSearch p text) ||
    z900_brand_patterns.any (fun p => reSearch p text)

/-- `ScraperZ900._is_z900_model`. -/
def is_z900_model (text : List Char) : Bool :=
  z900_model_patterns.any (fun p => reSearch p text)

/-- `ScraperZ900._is_excluded_model`. -/
def is_excluded_model (text : List Char) : Bool :=
  z900_exclude_patterns.any (fun p => reSearch p text)

/-- `ScraperZ900._is_valid_price_range`, with the profile bounds
`modelo_config['precio_min']`/`['precio_max']` as parameters: missing or
unparseable price text is accepted; a parsed price must be inside the bounds. -/
def is_valid_price_range (minP maxP : ℕ) (precio : String) : Bool :=
  if precio = "" then true
  else
    match firstDigitRun (removeChar ',' (removeChar '.' precio.toList)) with
    | some ds => decide (minP ≤ natOfDigits ds) && decide (natOfDigits ds ≤ maxP)
    | none => true

/-- First match of `re.search(r'(20[0-9]{2})', s)`. -/
def first20Token : List Char → Option ℕ
  | c0 :: c1 :: c2 :: c3 :: rest =>
    if c0 = '2' ∧ c1 = '0' ∧ c2.isDigit ∧ c3.isDigit then
      some (natOfDigits [c0, c1, c2, c3])
    else first20Token (c1 :: c2 :: c3 :: rest)
  | _ => none

/-- `ScraperZ900._is_valid_year_range`: missing or unparseable year text is
accepted; a parsed `20xx` year must be inside the profile bounds. -/
def is_valid_year_range (minY maxY : ℕ) (anio : String) : Bool :=
  if anio = "" then true
  else
    match first20Token anio.toList with
    | some y => decide (minY ≤ y) && decide (y ≤ maxY)
    | none => true

/-- `ScraperZ900.validate_moto_data` (profile bounds as parameters; the field
texts are the `moto_data.get(..., '')` values): brand, model, exclusion, price
range and year range checks, all required. -/
def validate_moto_data (minP maxP minY maxY : ℕ)
    (titulo descripcion precio anio : String) : Bool :=
  let combined := toLowerChars titulo.toList ++ [' '] ++ toLowerChars descripcion.toList
  is_kawasaki_brand combined && is_z900_model combined &&
    (! is_excluded_model combined) &&
    is_valid_price_range minP maxP precio && is_valid_year_range minY maxY anio

/-- The string contains, at some position, a 4-character token matching
`(19|20)\d{2}` whose value is `y`. -/
def yearTokenAt (l : List Char) (y : ℕ) : Prop :=
  ∃ pre c0 c1 c2 c3 suf, l = pre ++ c0 :: c1 :: c2 :: c3 :: suf ∧
    ((c0 = '1' ∧ c1 = '9') ∨ (c0 = '2' ∧ c1 = '0')) ∧
    c2.isDigit = true ∧ c3.isDigit = true ∧ natOfDigits [c0, c1, c2, c3] = y

/-- Inputs on which the two price extractors follow the same algorithm: the
cleaned text has a dot, or has no comma, or is the Spanish decimal shape
(exactly one comma with a ≤2-character tail). -/
def agreeCond (c : List Char) : Prop :=
  '.' ∈ c ∨ ',' ∉ c ∨
    (c.count ',' = 1 ∧ ((splitOnChar ',' c).getD 1 []).length ≤ 2)

instance agreeCondDecidable (c : List Char) : Decidable (agreeCond c) := by
  unfold agreeCond
  infer_instance

-- sanity checks on the representative inputs
example : extract_price (some "3.500€") = 3500 := by decide
example : extract_price (some "19,90 €") = mkRat 199 10 := by decide
example : extract_price (some "12.500,90€") = mkRat 125009 10 := by decide
example : extract_price (some "7690") = 7690 := by decide
example : extract_price_number (some "12.500,90€") = mkRat 125009 10 := by decide
example : extract_price_number (some "1,234") = 1 := by decide
example : extract_price (some "1,234") = 1234 := by decide
example : mkRat 199 10 = 199 / 10 := by rw [Rat.mkRat_eq_div]; norm_num

example : determine_model_min_price .cb125r = 1000 := by decide
example : determine_model_min_price .pcx125 = 600 := by decide
example : determine_model_min_price .agility125 = 600 := by decide
example : determine_model_min_price .z900 = 2500 := by decide
example : determine_model_min_price .mt07 = 2500 := by decide

example : is_commercial (some "Concesionario BMW") = true := by decide
example : is_commercial (some "Particular") = false := by decide
example : is_commercial (some "llama al 666 777 888") = true := by decide
example : is_island_location (some "Tenerife") = true := by decide
example : is_island_location (some "Madrid") = false := by decide
example : is_valid_price 1000 (some "400€") = false := by decide
example : is_valid_price 1000 (some "3.500€") = true := by decide
example : is_valid_km 25000 none = true := by decide
example : is_valid_km 25000 (some "45.000") = false := by decide

example : argsortDesc [5, 7, 5] = [1, 2, 0] := by decide
example : price_scores [3000, 3000] = [10, 10] := by decide

example : extract_year 2025 (some "Honda CB125R 2021") = 2021 := by decide
example : extract_year 2025 (some "km 120.000") = 0 := by decide
example : extract_year 2025 (some "1905") = 0 := by decide

example : is_valid_price_range 1000 4500 "400€" = false := by decide
example : is_valid_price_range 1000 4500 "" = true := by decide
example : is_valid_price_range 1000 4500 "consultar" = true := by decide
example : validate_moto_data 4500 9000 2017 2025 "Kawasaki Z900" "impecable" "6.500€" "2019" = true := by decide
example : validate_moto_data 4500 9000 2017 2025 "Kawasaki Z800 impecable" "" "6.500€" "2019" = false := by decide
example : validate_moto_data 4500 9000 2017 2025 "Z 900 kawasaki" "" "" "" = true := by decide

/-- C1 counterexample: a composite score of 9 (90% of the max achievable
composite 10) is categorized " Baja" by the source, not " Excelente" as the
claimed thresholds (≥85% of 10) would give. -/
theorem category_claim_fails_at_9 :
    get_rentabilidad_category 9 = " Baja" ∧
    rent_category_claimed 9 = " Excelente" ∧
    (" Baja" : String) ≠ " Excelente" := by
  refine ⟨?_, ?_, by decide⟩
  · simp only [get_rentabilidad_category]
    norm_num
  · simp only [rent_category_claimed]
    norm_num

/-- C1 (amended): the source derives the category from the composite score as
a percentage of 30 (the sum of the three per-field max scores, not the max
achievable composite 10), with thresholds 80/65/50/35/20; equivalently, by the
absolute composite thresholds 24, 19.5, 15, 10.5 and 6. -/
theorem category_eq_amended (s : ℚ) :
    get_rentabilidad_category s = rent_category_amended s := by
  simp only [get_rentabilidad_category, rent_category_amended]
  split_ifs <;> first
    | rfl
    | (exfalso; linarith)

/-- Folding the max step over an all-`c` list from `c` stays at `c`. -/
theorem foldMax_const (c : ℚ) (t : List ℚ) (h : ∀ x ∈ t, x = c) :
    t.foldl (fun a b => if a ≤ b then b else a) c = c := by
  induction t with
  | nil => rfl
  | cons b t ih =>
    have hb : b = c := h b (List.mem_cons_self b t)
    subst hb
    have : (if b ≤ b then b else b) = b := by split <;> rfl
    simpa [this] using ih (fun x hx => h x (List.mem_cons_of_mem b hx))

/-- Folding the min step over an all-`c` list from `c` stays at `c`. -/
theorem foldMin_const (c : ℚ) (t : List ℚ) (h : ∀ x ∈ t, x = c) :
    t.foldl (fun a b => if b ≤ a then b else a) c = c := by
  induction t with
  | nil => rfl
  | cons b t ih =>
    have hb : b = c := h b (List.mem_cons_self b t)
    subst hb
    have : (if b ≤ b then b else b) = b := by split <;> rfl
    simpa [this] using ih (fun x hx => h x (List.mem_cons_of_mem b hx))

/-- On an all-equal series the max equals the min. -/
theorem listMax_eq_listMin_of_const (xs : List ℚ) (c : ℚ) (h : ∀ x ∈ xs, x = c) :
    listMax xs = listMin xs := by
  cases xs with
  | nil => rfl
  | cons x t =>
    have hx : x = c := h x (List.mem_cons_self x t)
    subst hx
    have ht : ∀ y ∈ t, y = x := fun y hy => h y (List.mem_cons_of_mem x hy)
    simp only [listMax, listMin, foldMax_const x t ht, foldMin_const x t ht]

/-- C2 counterexample: on a batch where every record shares the same raw
price/mileage/year, the source assigns the constant per-field score 10.0
(`precio_max_score`), not the claimed neutral 5.0. -/
theorem neutral_score_claim_fails :
    price_scores [3000, 3000] = [10, 10] ∧
    km_scores [5000, 5000] = [10, 10] ∧
    year_scores [2020, 2020] = [10, 10] ∧
    ([10, 10] : List ℚ) ≠ [5, 5] := by
  refine ⟨by decide, by decide, by decide, by decide⟩

/-- C2 (amended): when all records of a batch share the same raw value for a
field, every record's score for that field is the constant 10.0
(`precio_max_score`/`km_max_score`/`año_max_score`), the all-equal branch of
the three `_calculate_*_score` functions. -/
theorem field_scores_const_ten (xs : List ℚ) (c : ℚ) (h : ∀ x ∈ xs, x = c) :
    price_scores xs = List.replicate xs.length 10 ∧
    km_scores xs = List.replicate xs.length 10 ∧
    year_scores xs = List.replicate xs.length 10 := by
  have hmm : xs.isEmpty ∨ listMax xs = listMin xs :=
    Or.inr (listMax_eq_listMin_of_const xs c h)
  refine ⟨?_, ?_, ?_⟩ <;>
    simp only [price_scores, km_scores, year_scores, if_pos hmm]

/-- C2 witness: the all-equal batch [3000, 3000] scores [10, 10]. -/
theorem field_scores_const_ten_witness :
    price_scores [3000, 3000] = List.replicate 2 10 :=
  (field_scores_const_ten [3000, 3000] 3000 (by decide)).1

/-- `float` raises on a digit-free string. -/
theorem pyFloatAux_nil_none (w : List Char) (r : List Char)
    (hw : w = []) (hr : ∀ x ∈ r, ¬ x.isDigit = true) : pyFloatAux w r = none := by
  subst hw
  cases r with
  | nil => rfl
  | cons c rest =>
    by_cases hdot : c = '.'
    · subst hdot
      cases rest with
      | nil => simp [pyFloatAux]
      | cons d rest' =>
        have hd : ¬ d.isDigit = true :=
          hr d (List.mem_cons_of_mem _ (List.mem_cons_self d rest'))
        simp [pyFloatAux, List.all_cons, hd]
    · unfold pyFloatAux
      split
      · rfl
      · rename_i f heq
        cases heq
        exact absurd rfl hdot
      · rfl

theorem pyFloat_none_of_noDigit (l : List Char) (h : ∀ x ∈ l, ¬ x.isDigit = true) :
    pyFloat l = none := by
  have hw : l.takeWhile Char.isDigit = [] := by
    cases l with
    | nil => rfl
    | cons c rest => simp [List.takeWhile_cons, h c (List.mem_cons_self c rest)]
  have hd : l.dropWhile Char.isDigit = l := by
    cases l with
    | nil => rfl
    | cons c rest => simp [List.dropWhile_cons, h c (List.mem_cons_self c rest)]
  rw [pyFloat, hw, hd]
  exact pyFloatAux_nil_none [] l rfl h

/-- `re.findall(r'\d+', ...)` finds nothing in a digit-free string. -/
theorem firstDigitRun_none_of_noDigit (l : List Char) (h : ∀ x ∈ l, ¬ x.isDigit = true) :
    firstDigitRun l = none := by
  induction l with
  | nil => rfl
  | cons c rest ih =>
    have hc : ¬ c.isDigit = true := h c (List.mem_cons_self c rest)
    simp only [firstDigitRun, if_neg hc]
    exact ih (fun x hx => h x (List.mem_cons_of_mem c hx))

/-- The digit-run fallback yields 0 on a digit-free string. -/
theorem firstNumberOr0_zero_of_noDigit (l : List Char) (h : ∀ x ∈ l, ¬ x.isDigit = true) :
    firstNumberOr0 l = 0 := by
  simp [firstNumberOr0, firstDigitRun_none_of_noDigit l h]


/-- A raising `float` call caught by the `except` yields 0. -/
theorem getD_pyFloat_zero (l : List Char) (h : ∀ x ∈ l, ¬ x.isDigit = true) :
    (pyFloat l).getD 0 = 0 := by
  rw [pyFloat_none_of_noDigit l h]
  rfl

/-- Every character of every group of `splitOnChar` comes from the input. -/
theorem splitOnChar_mem (sep : Char) (l : List Char) :
    ∀ g ∈ splitOnChar sep l, ∀ x ∈ g, x ∈ l := by
  induction l with
  | nil =>
    intro g hg x hx
    simp only [splitOnChar, List.mem_singleton] at hg
    subst hg
    simp at hx
  | cons c cs ih =>
    intro g hg x hx
    simp only [splitOnChar] at hg
    split at hg
    · rename_i hsp
      simp only [List.mem_singleton] at hg
      subst hg
      simp only [List.mem_singleton] at hx
      simp [hx]
    · rename_i g0 gs hsp
      split at hg
      · rcases List.mem_cons.mp hg with h1 | h1
        · subst h1; simp at hx
        · exact List.mem_cons_of_mem c (ih g (hsp ▸ h1) x hx)
      · rcases List.mem_cons.mp hg with h1 | h1
        · subst h1
          rcases List.mem_cons.mp hx with h2 | h2
          · simp [h2]
          · exact List.mem_cons_of_mem c
              (ih g0 (hsp ▸ List.mem_cons_self g0 gs) x h2)
        · exact List.mem_cons_of_mem c (ih g (hsp ▸ List.mem_cons_of_mem g0 h1) x hx)

/-- Same for a group selected with `getD`. -/
theorem splitOnChar_getD_mem (sep : Char) (l : List Char) (i : ℕ) :
    ∀ x ∈ (splitOnChar sep l).getD i [], x ∈ l := by
  intro x hx
  rw [List.getD_eq_getElem?_getD] at hx
  cases h : (splitOnChar sep l)[i]? with
  | none => rw [h] at hx; simp at hx
  | some g =>
    rw [h] at hx
    exact splitOnChar_mem sep l g (List.getElem?_mem h) x hx

/-- The deal scorer's price parser yields 0 on a digit-free character list. -/
theorem extract_price_chars_noDigit (c : List Char) (h : ∀ x ∈ c, ¬ x.isDigit = true) :
    extract_price_chars c = 0 := by
  have hspan : ∀ x ∈ removeChar '.' ((splitOnChar ',' c).getD 0 []) ++
      '.' :: (splitOnChar ',' c).getD 1 [], ¬ x.isDigit = true := by
    intro x hx
    rcases List.mem_append.mp hx with h1 | h1
    · exact h x (splitOnChar_getD_mem ',' c 0 x (List.mem_of_mem_filter h1))
    · rcases List.mem_cons.mp h1 with h2 | h2
      · subst h2; decide
      · exact h x (splitOnChar_getD_mem ',' c 1 x h2)
  have hc2d : ∀ x ∈ commaToDot c, ¬ x.isDigit = true := by
    intro x hx
    rcases List.mem_map.mp hx with ⟨y, hy, hyx⟩
    by_cases hy' : y = ','
    · rw [hy', if_pos rfl] at hyx; subst hyx; decide
    · rw [if_neg hy'] at hyx; subst hyx; exact h y hy
  simp only [extract_price_chars]
  split_ifs
  · rfl
  · exact getD_pyFloat_zero _ hspan
  · exact getD_pyFloat_zero _
      (fun x hx => h x (List.mem_of_mem_filter (List.mem_of_mem_filter hx)))
  · exact getD_pyFloat_zero _ hc2d
  · exact getD_pyFloat_zero _ (fun x hx => h x (List.mem_of_mem_filter hx))
  · exact getD_pyFloat_zero c h
  · exact getD_pyFloat_zero _ (fun x hx => h x (List.mem_of_mem_filter hx))
  · exact getD_pyFloat_zero c h

/-- The cleaner's price parser yields 0 on a digit-free character list. -/
theorem extract_price_number_chars_noDigit (c : List Char)
    (h : ∀ x ∈ c, ¬ x.isDigit = true) : extract_price_number_chars c = 0 := by
  have hspan : ∀ x ∈ removeChar '.' ((splitOnChar ',' c).getD 0 []) ++
      '.' :: (splitOnChar ',' c).getD 1 [], ¬ x.isDigit = true := by
    intro x hx
    rcases List.mem_append.mp hx with h1 | h1
    · exact h x (splitOnChar_getD_mem ',' c 0 x (List.mem_of_mem_filter h1))
    · rcases List.mem_cons.mp h1 with h2 | h2
      · subst h2; decide
      · exact h x (splitOnChar_getD_mem ',' c 1 x h2)
  have hc2d : ∀ x ∈ commaToDot c, ¬ x.isDigit = true := by
    intro x hx
    rcases List.mem_map.mp hx with ⟨y, hy, hyx⟩
    by_cases hy' : y = ','
    · rw [hy', if_pos rfl] at hyx; subst hyx; decide
    · rw [if_neg hy'] at hyx; subst hyx; exact h y hy
  simp only [extract_price_number_chars]
  split_ifs
  · rfl
  · exact getD_pyFloat_zero _ hspan
  · exact getD_pyFloat_zero _
      (fun x hx => h x (List.mem_of_mem_filter (List.mem_of_mem_filter hx)))
  · exact getD_pyFloat_zero c h
  · exact getD_pyFloat_zero _ (fun x hx => h x (List.mem_of_mem_filter hx))
  · exact getD_pyFloat_zero _ hc2d
  · exact firstNumberOr0_zero_of_noDigit c h
  · exact getD_pyFloat_zero c h
  · exact getD_pyFloat_zero _ (fun x hx => h x (List.mem_of_mem_filter hx))
  · exact firstNumberOr0_zero_of_noDigit c h
  · exact firstNumberOr0_zero_of_noDigit c h

/-- The cleaner's mileage parser yields 0 on a digit-free character list. -/
theorem extract_km_number_chars_noDigit (c : List Char)
    (h : ∀ x ∈ c, ¬ x.isDigit = true) : extract_km_number_chars c = 0 := by
  have hc2d : ∀ x ∈ commaToDot c, ¬ x.isDigit = true := by
    intro x hx
    rcases List.mem_map.mp hx with ⟨y, hy, hyx⟩
    by_cases hy' : y = ','
    · rw [hy', if_pos rfl] at hyx; subst hyx; decide
    · rw [if_neg hy'] at hyx; subst hyx; exact h y hy
  simp only [extract_km_number_chars]
  split_ifs
  · rfl
  · exact getD_pyFloat_zero _ hc2d
  · exact getD_pyFloat_zero c h
  · exact getD_pyFloat_zero _ (fun x hx => h x (List.mem_of_mem_filter hx))
  · exact getD_pyFloat_zero c h
  · exact firstNumberOr0_zero_of_noDigit c h

/-- Digit-freeness carries over to the cleaned character list. -/
theorem cleanNum_noDigit (s : String) (h : hasNoDigit s = true) :
    ∀ x ∈ cleanNum s.toList, ¬ x.isDigit = true := by
  have hall : ∀ y ∈ s.toList, y.isDigit = false := by simpa [hasNoDigit] using h
  intro x hx
  simp [hall x (List.mem_of_mem_filter hx)]

/-- The deal scorer's price parser yields 0 on a digit-free string. -/
theorem extract_price_noDigit (s : String) (h : hasNoDigit s = true) :
    extract_price (some s) = 0 := by
  by_cases hs : s = ""
  · simp [extract_price, hs]
  · show (if s = "" then 0 else extract_price_chars (cleanNum s.toList)) = 0
    rw [if_neg hs]
    exact extract_price_chars_noDigit _ (cleanNum_noDigit s h)

/-- The cleaner's price parser yields 0 on a digit-free string. -/
theorem extract_price_number_noDigit (s : String) (h : hasNoDigit s = true) :
    extract_price_number (some s) = 0 := by
  by_cases hs : s = ""
  · simp [extract_price_number, hs]
  · show (if s = "" then 0 else extract_price_number_chars (cleanNum s.toList)) = 0
    rw [if_neg hs]
    exact extract_price_number_chars_noDigit _ (cleanNum_noDigit s h)

/-- C3: both price parsers map the representative strings "3.500€" → 3500.0,
"19,90 €" → 19.90, "12.500,90€" → 12500.90 and "7690" → 7690.0, and on any
digit-free garbage string they return 0.0 instead of raising. -/
theorem price_parser_representative_values (s : String) :
    extract_price (some "3.500€") = 3500 ∧
    extract_price (some "19,90 €") = 199 / 10 ∧
    extract_price (some "12.500,90€") = 125009 / 10 ∧
    extract_price (some "7690") = 7690 ∧
    extract_price_number (some "3.500€") = 3500 ∧
    extract_price_number (some "19,90 €") = 199 / 10 ∧
    extract_price_number (some "12.500,90€") = 125009 / 10 ∧
    extract_price_number (some "7690") = 7690 ∧
    (hasNoDigit s = true →
      extract_price (some s) = 0 ∧ extract_price_number (some s) = 0) := by
  refine ⟨by decide, ?_, ?_, by decide, by decide, ?_, ?_, by decide, ?_⟩
  · have h : extract_price (some "19,90 €") = mkRat 199 10 := by decide
    rw [h, Rat.mkRat_eq_div]; norm_num
  · have h : extract_price (some "12.500,90€") = mkRat 125009 10 := by decide
    rw [h, Rat.mkRat_eq_div]; norm_num
  · have h : extract_price_number (some "19,90 €") = mkRat 199 10 := by decide
    rw [h, Rat.mkRat_eq_div]; norm_num
  · have h : extract_price_number (some "12.500,90€") = mkRat 125009 10 := by decide
    rw [h, Rat.mkRat_eq_div]; norm_num
  · intro hs
    exact ⟨extract_price_noDigit s hs, extract_price_number_noDigit s hs⟩

/-- C3 witness: a concrete garbage string parses to 0.0 in both parsers. -/
theorem price_parser_garbage_witness :
    hasNoDigit "precio a convenir €" = true ∧
    extract_price (some "precio a convenir €") = 0 ∧
    extract_price_number (some "precio a convenir €") = 0 := by
  have h : hasNoDigit "precio a convenir €" = true := by decide
  have h2 := (price_parser_representative_values "precio a convenir €").2.2.2.2.2.2.2.2 h
  exact ⟨h, h2.1, h2.2⟩

/-- C10: with a price column present, a record whose price text is missing,
empty or digit-free is dropped by the cleaner's price filter for every model
(it parses to 0, below every model-specific floor), while a record with
missing mileage text is kept by the mileage filter. -/
theorem cleaner_missing_price_dropped_missing_km_kept (m : ModeloKey) (t : Option String)
    (h : t = none ∨ ∃ s, t = some s ∧ hasNoDigit s = true) :
    is_valid_price (determine_model_min_price m) t = false ∧
    (∀ u : Option String, u = none ∨ u = some "" → is_valid_km (km_max m) u = true) := by
  constructor
  · rcases h with h | ⟨s, rfl, hs⟩
    · subst h; rfl
    · by_cases hemp : s = ""
      · subst hemp; rfl
      · show (if s = "" then false
          else decide (determine_model_min_price m ≤ extract_price_number (some s))) = false
        rw [if_neg hemp, extract_price_number_noDigit s hs]
        cases m <;> decide
  · intro u hu
    rcases hu with rfl | rfl <;> rfl

/-- C10 witness: an unparseable price text is dropped for the CB125R profile;
a missing mileage is kept. -/
theorem cleaner_missing_price_witness :
    is_valid_price (determine_model_min_price .cb125r) (some "consultar precio €") = false ∧
    is_valid_km (km_max .cb125r) none = true := by
  have h := cleaner_missing_price_dropped_missing_km_kept .cb125r
    (some "consultar precio €") (Or.inr ⟨"consultar precio €", rfl, by decide⟩)
  exact ⟨h.1, h.2 none (Or.inl rfl)⟩

/-- C7: the Z900 validator rejects any candidate whose parsed numeric price
falls outside the profile bounds, and its price check accepts a candidate whose
price text is missing or contains no digits (never rejecting on price grounds
alone). -/
theorem validator_price_range_enforced (minP maxP minY maxY : ℕ)
    (titulo descripcion precio anio : String) :
    (∀ ds, firstDigitRun (removeChar ',' (removeChar '.' precio.toList)) = some ds →
      (natOfDigits ds < minP ∨ maxP < natOfDigits ds) →
      validate_moto_data minP maxP minY maxY titulo descripcion precio anio = false) ∧
    (precio = "" ∨ firstDigitRun (removeChar ',' (removeChar '.' precio.toList)) = none →
      is_valid_price_range minP maxP precio = true) := by
  constructor
  · intro ds hds hout
    have hprice : is_valid_price_range minP maxP precio = false := by
      unfold is_valid_price_range
      have hne : ¬ precio = "" := by
        intro hemp
        rw [hemp] at hds
        simp [firstDigitRun] at hds
      rw [if_neg hne, hds]
      rcases hout with hlt | hgt
      · have : ¬ minP ≤ natOfDigits ds := Nat.not_le.mpr hlt
        simp [this]
      · have : ¬ natOfDigits ds ≤ maxP := Nat.not_le.mpr hgt
        simp [this]
    unfold validate_moto_data
    rw [hprice]
    simp
  · intro h
    rcases h with rfl | hnone
    · rfl
    · unfold is_valid_price_range
      by_cases hemp : precio = ""
      · rw [if_pos hemp]
      · rw [if_neg hemp, hnone]

/-- C7 witness: price 400 against bounds [1000, 4500] is rejected; an empty
price text passes the price check. -/
theorem validator_price_range_witness :
    validate_moto_data 1000 4500 2018 2025 "Kawasaki Z900" "" "400€" "2019" = false ∧
    is_valid_price_range 1000 4500 "" = true := by
  have h := validator_price_range_enforced 1000 4500 2018 2025 "Kawasaki Z900" "" "400€" "2019"
  exact ⟨h.1 ['4', '0', '0'] (by decide) (by decide),
    (validator_price_range_enforced 1000 4500 2018 2025 "Kawasaki Z900" "" "" "2019").2
      (Or.inl rfl)⟩

/-- Two boolean filters over a batch commute. -/
theorem filter_swap {α : Type} (p q : α → Bool) (l : List α) :
    (l.filter p).filter q = (l.filter q).filter p := by
  induction l with
  | nil => rfl
  | cons a t ih =>
    by_cases hp : p a = true <;> by_cases hq : q a = true <;>
      simp [List.filter_cons, hp, hq, ih]

/-- Fusing two filters into one. -/
theorem filter_fuse {α : Type} (p q : α → Bool) (l : List α) :
    (l.filter p).filter q = l.filter (fun a => p a && q a) := by
  induction l with
  | nil => rfl
  | cons a t ih =>
    by_cases hp : p a = true <;> by_cases hq : q a = true <;>
      simp [List.filter_cons, hp, hq, ih]

/-- Every rule except the URL dedup acts as a per-record boolean filter. -/
theorem applyRule_eq_filter (m : ModeloKey) (r : CleanRule) (h : r ≠ CleanRule.dup)
    (l : List MotoRecord) : applyRule m r l = l.filter (rulePred m r) := by
  cases r with
  | dup => exact absurd rfl h
  | price => rfl
  | commercial => rfl
  | island => rfl
  | km => rfl

/-- Permuting a dedup-free rule sequence does not change the outcome. -/
theorem applyRules_perm (m : ModeloKey) {rs qs : List CleanRule} (h : rs.Perm qs) :
    CleanRule.dup ∉ rs → ∀ l, applyRules m rs l = applyRules m qs l := by
  induction h with
  | nil => intro _ _; rfl
  | cons x h ih =>
    intro hd l
    have hd' : CleanRule.dup ∉ _ := fun hm => hd (List.mem_cons_of_mem x hm)
    exact ih hd' (applyRule m x l)
  | swap x y t =>
    intro hd l
    have hy : y ≠ CleanRule.dup := fun he => hd (he ▸ List.mem_cons_self y _)
    have hx : x ≠ CleanRule.dup := fun he =>
      hd (he ▸ List.mem_cons_of_mem y (List.mem_cons_self x _))
    show applyRules m t (applyRule m x (applyRule m y l)) =
      applyRules m t (applyRule m y (applyRule m x l))
    rw [applyRule_eq_filter m x hx, applyRule_eq_filter m y hy,
      applyRule_eq_filter m x hx, applyRule_eq_filter m y hy, filter_swap]
  | trans h1 _ ih1 ih2 =>
    intro hd l
    rw [ih1 hd l, ih2 (fun hm => hd (h1.mem_iff.mpr hm)) l]

/-- C5 counterexample: the URL-dedup rule does not commute with the price
filter.  Two records share one URL; the first is under the price floor.  With
the source order (dedup first) both are removed; moving the price filter ahead
of dedup keeps the second record.  So the five rules do not yield the same
final set in any order. -/
theorem cleaner_order_counterexample :
    applyRules ModeloKey.cb125r
        [CleanRule.dup, CleanRule.price, CleanRule.commercial, CleanRule.island, CleanRule.km]
        [⟨some "CB125R barata", some "400€", some "5.000", some "Particular", some "Madrid", some "u"⟩,
         ⟨some "CB125R", some "3.500€", some "5.000", some "Particular", some "Madrid", some "u"⟩] ≠
      applyRules ModeloKey.cb125r
        [CleanRule.price, CleanRule.dup, CleanRule.commercial, CleanRule.island, CleanRule.km]
        [⟨some "CB125R barata", some "400€", some "5.000", some "Particular", some "Madrid", some "u"⟩,
         ⟨some "CB125R", some "3.500€", some "5.000", some "Particular", some "Madrid", some "u"⟩] := by
  decide

/-- C5 (amended): keeping the URL-dedup first as in the source, the four
boolean filters (price floor, commercial seller, island location, mileage
ceiling) can be applied in any order and give the same final record set;
order affects only the per-rule removal counts.  The dedup rule itself does
not commute with the filters (see the counterexample). -/
theorem cleaner_filter_order_irrelevant (m : ModeloKey) (rs : List CleanRule)
    (h : rs.Perm [CleanRule.price, CleanRule.commercial, CleanRule.island, CleanRule.km])
    (l : List MotoRecord) :
    applyRules m (CleanRule.dup :: rs) l = clean_data m l := by
  have hd : CleanRule.dup ∉ rs := fun hm => by
    have := h.mem_iff.mp hm
    simp at this
  exact applyRules_perm m h hd (dedupURL l)

/-- C5 witness: the reversed filter order gives the source's result on a
concrete batch. -/
theorem cleaner_filter_order_witness :
    ([CleanRule.km, CleanRule.island, CleanRule.commercial, CleanRule.price].Perm
      [CleanRule.price, CleanRule.commercial, CleanRule.island, CleanRule.km]) ∧
    applyRules ModeloKey.cb125r
        [CleanRule.dup, CleanRule.km, CleanRule.island, CleanRule.commercial, CleanRule.price]
        [⟨some "CB125R", some "3.500€", some "5.000", some "Particular", some "Madrid", some "u1"⟩,
         ⟨some "CB125R", some "400€", some "3.000", some "Particular", some "Valencia", some "u2"⟩] =
      clean_data ModeloKey.cb125r
        [⟨some "CB125R", some "3.500€", some "5.000", some "Particular", some "Madrid", some "u1"⟩,
         ⟨some "CB125R", some "400€", some "3.000", some "Particular", some "Valencia", some "u2"⟩] := by
  refine ⟨by decide, ?_⟩
  exact cleaner_filter_order_irrelevant ModeloKey.cb125r
    [CleanRule.km, CleanRule.island, CleanRule.commercial, CleanRule.price] (by decide) _

/-- The dedup output has pairwise distinct URL keys, none of them in `seen`. -/
theorem dedupURLAux_nodup_keys (l : List MotoRecord) :
    ∀ seen, ((dedupURLAux seen l).map (fun r => r.url)).Nodup ∧
      ∀ u ∈ (dedupURLAux seen l).map (fun r => r.url), u ∉ seen := by
  induction l with
  | nil =>
    intro seen
    exact ⟨List.nodup_nil, by simp [dedupURLAux]⟩
  | cons r rs ih =>
    intro seen
    by_cases hm : r.url ∈ seen
    · simpa [dedupURLAux, hm] using ih seen
    · simp only [dedupURLAux, if_neg hm, List.map_cons]
      obtain ⟨ih1, ih2⟩ := ih (r.url :: seen)
      refine ⟨List.nodup_cons.mpr ⟨fun hmem => (ih2 _ hmem) (List.mem_cons_self _ _), ih1⟩, ?_⟩
      intro u hu
      rcases List.mem_cons.mp hu with rfl | hu2
      · exact hm
      · exact fun hus => (ih2 u hu2) (List.mem_cons_of_mem _ hus)

/-- Dedup is the identity on a batch whose URL keys are already distinct and
disjoint from `seen`. -/
theorem dedupURLAux_id (l : List MotoRecord) :
    ∀ seen, ((l.map (fun r => r.url)).Nodup) → (∀ r ∈ l, r.url ∉ seen) →
      dedupURLAux seen l = l := by
  induction l with
  | nil => intro _ _ _; rfl
  | cons r rs ih =>
    intro seen hnd hseen
    have hm : r.url ∉ seen := hseen r (List.mem_cons_self r rs)
    have hnd' : (∀ x ∈ rs, ¬ x.url = r.url) ∧ (rs.map (fun r => r.url)).Nodup := by
      simpa using hnd
    rw [dedupURLAux, if_neg hm]
    congr 1
    refine ih (r.url :: seen) hnd'.2 ?_
    intro x hx hmem
    rcases List.mem_cons.mp hmem with heq | hseen2
    · exact absurd heq (hnd'.1 x hx)
    · exact hseen x (List.mem_cons_of_mem r hx) hseen2

/-- URL keys of a deduped batch are pairwise distinct. -/
theorem dedupURL_nodup_keys (l : List MotoRecord) :
    ((dedupURL l).map (fun r => r.url)).Nodup :=
  (dedupURLAux_nodup_keys l []).1

/-- Dedup is the identity on a batch with distinct URL keys. -/
theorem dedupURL_id_of_nodup (l : List MotoRecord)
    (h : (l.map (fun r => r.url)).Nodup) : dedupURL l = l :=
  dedupURLAux_id l [] h (by simp)

/-- C6: cleaning is idempotent on the record set: a second run of the
cleaner's dedup-plus-four-filters pipeline changes nothing. -/
theorem clean_data_idempotent (m : ModeloKey) (l : List MotoRecord) :
    clean_data m (clean_data m l) = clean_data m l := by
  have hrepr : ∀ x : List MotoRecord, clean_data m x =
      ((((dedupURL x).filter (rulePred m .price)).filter
        (rulePred m .commercial)).filter (rulePred m .island)).filter (rulePred m .km) :=
    fun x => rfl
  have hsub : List.Sublist (clean_data m l) (dedupURL l) := by
    rw [hrepr]
    exact ((((List.filter_sublist _).trans (List.filter_sublist _)).trans
      (List.filter_sublist _)).trans (List.filter_sublist _))
  have hkeys : ((clean_data m l).map (fun r => r.url)).Nodup :=
    (dedupURL_nodup_keys l).sublist (hsub.map _)
  have hdedup2 : dedupURL (clean_data m l) = clean_data m l :=
    dedupURL_id_of_nodup _ hkeys
  conv_lhs => rw [hrepr, hdedup2, hrepr l]
  conv_rhs => rw [hrepr l]
  simp only [filter_fuse]
  apply List.filter_congr
  intro a _
  cases rulePred m .price a <;> cases rulePred m .commercial a <;>
    cases rulePred m .island a <;> cases rulePred m .km a <;> rfl

/-- The scanner only reports actual `(19|20)\d{2}` tokens. -/
theorem firstYearToken_sound :
    ∀ l y, firstYearToken l = some y → yearTokenAt l y := by
  intro l
  induction l with
  | nil => intro y h; simp [firstYearToken] at h
  | cons c0 rest ih =>
    intro y h
    match rest, ih with
    | [], _ => simp [firstYearToken] at h
    | [c1], _ => simp [firstYearToken] at h
    | [c1, c2], _ => simp [firstYearToken] at h
    | c1 :: c2 :: c3 :: rest', ih =>
      rw [firstYearToken] at h
      split at h
      · rename_i hcond
        injection h with h'
        exact ⟨[], c0, c1, c2, c3, rest', rfl, hcond.1, hcond.2.1, hcond.2.2, h'⟩
      · obtain ⟨pre, d0, d1, d2, d3, suf, heq, hc⟩ := ih y h
        exact ⟨c0 :: pre, d0, d1, d2, d3, suf, by simp [heq], hc⟩

/-- If no in-range token occurs anywhere, the scanner's result (if any) is out
of range. -/
theorem yearTokenAt_extend (pre suf : List Char) (l : List Char) (y : ℕ)
    (h : yearTokenAt l y) : yearTokenAt (pre ++ l ++ suf) y := by
  obtain ⟨p, c0, c1, c2, c3, s, heq, hc⟩ := h
  exact ⟨pre ++ p, c0, c1, c2, c3, s ++ suf, by simp [heq], hc⟩

/-- A token of the stripped string is a token of the string. -/
theorem yearTokenAt_of_trim (l : List Char) (y : ℕ)
    (h : yearTokenAt (trimChars l) y) : yearTokenAt l y := by
  have h1 : List.IsSuffix (l.dropWhile Char.isWhitespace) l := List.dropWhile_suffix _
  have h2 : List.IsSuffix ((l.dropWhile Char.isWhitespace).reverse.dropWhile Char.isWhitespace)
      (l.dropWhile Char.isWhitespace).reverse := List.dropWhile_suffix _
  have h3 : List.IsPrefix (trimChars l) (l.dropWhile Char.isWhitespace) := by
    rw [← List.reverse_suffix]
    simpa [trimChars] using h2
  obtain ⟨s1, hs1⟩ := h3
  obtain ⟨p2, hp2⟩ := h1
  have hext := yearTokenAt_extend p2 s1 (trimChars l) y h
  rwa [show p2 ++ trimChars l ++ s1 = l from by
    rw [List.append_assoc, hs1, hp2]] at hext

/-- C8: `_extract_year` returns a year y only when the text contains a
`(19|20)\d{2}` token of value y with 1990 ≤ y ≤ current_year + 1; when the
text contains no such in-range token it returns the null sentinel 0; and
"Honda CB125R 2021" parses to 2021. -/
theorem parse_year_spec (cy : ℕ) (s : String) :
    (∀ y, extract_year cy (some s) = y → y ≠ 0 →
      yearTokenAt s.toList y ∧ 1990 ≤ y ∧ y ≤ cy + 1) ∧
    ((∀ y', yearTokenAt s.toList y' → ¬(1990 ≤ y' ∧ y' ≤ cy + 1)) →
      extract_year cy (some s) = 0) ∧
    extract_year 2025 (some "Honda CB125R 2021") = 2021 := by
  refine ⟨?_, ?_, by decide⟩
  · intro y hy hy0
    by_cases hs : s = ""
    · rw [show extract_year cy (some s) = 0 from by simp [extract_year, hs]] at hy
      exact absurd hy.symm hy0
    · simp only [extract_year, if_neg hs] at hy
      cases hft : firstYearToken (trimChars s.toList) with
      | none => rw [hft] at hy; exact absurd hy.symm hy0
      | some y0 =>
        rw [hft] at hy
        have hy' : (if 1990 ≤ y0 ∧ y0 ≤ cy + 1 then y0 else 0) = y := hy
        by_cases hr : 1990 ≤ y0 ∧ y0 ≤ cy + 1
        · rw [if_pos hr] at hy'
          subst hy'
          exact ⟨yearTokenAt_of_trim _ _ (firstYearToken_sound _ _ hft), hr.1, hr.2⟩
        · rw [if_neg hr] at hy'
          exact absurd hy'.symm hy0
  · intro hno
    by_cases hs : s = ""
    · simp [extract_year, hs]
    · simp only [extract_year, if_neg hs]
      cases hft : firstYearToken (trimChars s.toList) with
      | none => rfl
      | some y0 =>
        have htok := yearTokenAt_of_trim _ _ (firstYearToken_sound _ _ hft)
        show (if 1990 ≤ y0 ∧ y0 ≤ cy + 1 then y0 else 0) = 0
        rw [if_neg (hno y0 htok)]

/-- C8 witness: the example title yields the in-range token 2021. -/
theorem parse_year_spec_witness :
    yearTokenAt "Honda CB125R 2021".toList 2021 ∧ 1990 ≤ 2021 ∧ 2021 ≤ 2025 + 1 :=
  (parse_year_spec 2025 "Honda CB125R 2021").1 2021 (by decide) (by decide)

/-- The stable-ascending index comparison is total. -/
theorem qleLex_total (keys : List ℚ) : ∀ i j, qleLex keys i j ∨ qleLex keys j i := by
  intro i j
  rcases lt_trichotomy (keys.getD i 0) (keys.getD j 0) with h | h | h
  · exact Or.inl (Or.inl h)
  · rcases Nat.le_total i j with hle | hle
    · exact Or.inl (Or.inr ⟨h, hle⟩)
    · exact Or.inr (Or.inr ⟨h.symm, hle⟩)
  · exact Or.inr (Or.inl h)

/-- The stable-ascending index comparison is transitive. -/
theorem qleLex_trans (keys : List ℚ) :
    ∀ i j k, qleLex keys i j → qleLex keys j k → qleLex keys i k := by
  intro i j k hij hjk
  rcases hij with h1 | ⟨h1, h1'⟩ <;> rcases hjk with h2 | ⟨h2, h2'⟩
  · exact Or.inl (h1.trans h2)
  · exact Or.inl (h2 ▸ h1)
  · exact Or.inl (h1 ▸ h2)
  · exact Or.inr ⟨h1.trans h2, h1'.trans h2'⟩

/-- In the ascending argsort, two rows with equal keys appear in input order. -/
theorem argsortAsc_ties_in_order (keys : List ℚ) :
    List.Pairwise (fun a b => keys.getD a 0 = keys.getD b 0 → a < b) (argsortAsc keys) := by
  haveI : IsTotal ℕ (qleLex keys) := ⟨qleLex_total keys⟩
  haveI : IsTrans ℕ (qleLex keys) := ⟨qleLex_trans keys⟩
  have hsort : List.Sorted (qleLex keys) (argsortAsc keys) :=
    List.sorted_insertionSort (qleLex keys) (List.range keys.length)
  have hperm : (argsortAsc keys).Perm (List.range keys.length) :=
    List.perm_insertionSort (qleLex keys) (List.range keys.length)
  have hnd : (argsortAsc keys).Nodup := hperm.nodup_iff.mpr (List.nodup_range _)
  have hand := List.Pairwise.and hsort hnd
  refine hand.imp ?_
  rintro a b ⟨hr, hne⟩ heq
  rcases hr with hlt | ⟨_, hle⟩
  · exact absurd hlt (by rw [heq]; exact lt_irrefl _)
  · exact lt_of_le_of_ne hle hne

/-- In the descending row order, two rows with equal keys appear in reversed
input order. -/
theorem argsortDesc_ties_reversed_pairwise (keys : List ℚ) :
    List.Pairwise (fun a b => keys.getD a 0 = keys.getD b 0 → b < a) (argsortDesc keys) := by
  rw [argsortDesc, List.pairwise_reverse]
  exact (argsortAsc_ties_in_order keys).imp (fun h heq => h heq.symm)

/-- Every row index below the batch size appears in the ranking. -/
theorem mem_argsortDesc (keys : List ℚ) (n : ℕ) (hn : n < keys.length) :
    n ∈ argsortDesc keys := by
  have hperm : (argsortAsc keys).Perm (List.range keys.length) :=
    List.perm_insertionSort (qleLex keys) (List.range keys.length)
  have : n ∈ argsortAsc keys := hperm.mem_iff.mpr (List.mem_range.mpr hn)
  simpa [argsortDesc] using this

/-- C9 (amended): the scorer's ranked order is deterministic (it is a pure
function of the batch), but two listings with identical composite scores come
out in REVERSED relative input order: pandas' descending `sort_values` is the
reverse of a stable ascending argsort, so the later listing is ranked first. -/
theorem scorer_ties_reversed (rows : List (ℚ × ℚ × ℚ)) (i j : ℕ) (hij : i < j)
    (hj : j < (composite_of rows).length)
    (hk : (composite_of rows).getD i 0 = (composite_of rows).getD j 0) :
    (rentabilidad_ranking rows).indexOf j < (rentabilidad_ranking rows).indexOf i := by
  have hi : i < (composite_of rows).length := lt_trans hij hj
  have hmi : i ∈ argsortDesc (composite_of rows) := mem_argsortDesc _ i hi
  have hmj : j ∈ argsortDesc (composite_of rows) := mem_argsortDesc _ j hj
  have hpw := argsortDesc_ties_reversed_pairwise (composite_of rows)
  have hia := List.indexOf_lt_length.mpr hmi
  have hja := List.indexOf_lt_length.mpr hmj
  rcases Nat.lt_trichotomy ((argsortDesc (composite_of rows)).indexOf j)
      ((argsortDesc (composite_of rows)).indexOf i) with hlt | heq | hgt
  · exact hlt
  · exfalso
    have h1 := List.getElem_indexOf hia
    have h2 := List.getElem_indexOf hja
    have hfin : (argsortDesc (composite_of rows)).get ⟨_, hja⟩ =
        (argsortDesc (composite_of rows)).get ⟨_, hia⟩ := congrArg _ (Fin.ext heq)
    rw [List.get_eq_getElem, List.get_eq_getElem, h1, h2] at hfin
    exact absurd (hfin ▸ hij) (lt_irrefl j)
  · exfalso
    have := List.pairwise_iff_getElem.mp hpw _ _ hia hja hgt
    rw [List.getElem_indexOf hia, List.getElem_indexOf hja] at this
    exact absurd hij (Nat.lt_asymm (this hk))

/-- The ranking of two rows with equal keys is [1, 0]: the second row first. -/
theorem argsortDesc_pair (c : ℚ) : argsortDesc [c, c] = [1, 0] := by
  have h01 : qleLex [c, c] 0 1 := Or.inr ⟨rfl, by norm_num⟩
  show (List.insertionSort (qleLex [c, c]) (List.range 2)).reverse = [1, 0]
  rw [show List.range 2 = [0, 1] from rfl]
  simp only [List.insertionSort, List.orderedInsert]
  rw [if_pos h01]
  rfl

/-- C9 counterexample: two listings with identical composite scores (identical
price, mileage and year) do NOT retain their input order: the blocked claim
predicts ranking [0, 1], the code produces [1, 0]. -/
theorem scorer_tie_counterexample :
    rentabilidad_ranking [(3000, 5000, 2020), (3000, 5000, 2020)] = [1, 0] ∧
    ([1, 0] : List ℕ) ≠ [0, 1] := by
  constructor
  · show argsortDesc (composite_of [(3000, 5000, 2020), (3000, 5000, 2020)]) = [1, 0]
    have hco : composite_of [(3000, 5000, 2020), (3000, 5000, 2020)] =
        [peso_precio * 10 + peso_km * 10 + peso_anio * 10,
         peso_precio * 10 + peso_km * 10 + peso_anio * 10] := by
      show composite_scores (price_scores [3000, 3000]) (km_scores [5000, 5000])
        (year_scores [2020, 2020]) = _
      rw [show price_scores [3000, 3000] = [10, 10] from by decide,
        show km_scores [5000, 5000] = [10, 10] from by decide,
        show year_scores [2020, 2020] = [10, 10] from by decide]
      rfl
    rw [hco]
    exact argsortDesc_pair _
  · decide

/-- C9 witness: a concrete two-listing batch with tied composite scores, where
listing 1 is ranked strictly before listing 0. -/
theorem scorer_ties_reversed_witness :
    (rentabilidad_ranking [(3000, 5000, 2020), (3000, 5000, 2020)]).indexOf 1 <
      (rentabilidad_ranking [(3000, 5000, 2020), (3000, 5000, 2020)]).indexOf 0 :=
  scorer_ties_reversed [(3000, 5000, 2020), (3000, 5000, 2020)] 0 1
    (by decide) (by decide) (by rfl)

/-- Branch reduction: scorer's parser, both separators present. -/
theorem extract_price_chars_both (c : List Char) (h0 : ¬ c = [])
    (hd : '.' ∈ c) (hc : ',' ∈ c) :
    extract_price_chars c =
      (if (splitOnChar ',' c).length = 2 ∧ ((splitOnChar ',' c).getD 1 []).length ≤ 2 then
        (pyFloat (removeChar '.' ((splitOnChar ',' c).getD 0 []) ++
          '.' :: (splitOnChar ',' c).getD 1 [])).getD 0
      else (pyFloat (removeChar ',' (removeChar '.' c))).getD 0) := by
  simp only [extract_price_chars]
  rw [if_neg h0, if_pos ⟨hc, hd⟩]

/-- Branch reduction: cleaner's parser, both separators present. -/
theorem extract_price_number_chars_both (c : List Char) (h0 : ¬ c = [])
    (hd : '.' ∈ c) (hc : ',' ∈ c) :
    extract_price_number_chars c =
      (if (splitOnChar ',' c).length = 2 ∧ ((splitOnChar ',' c).getD 1 []).length ≤ 2 then
        (pyFloat (removeChar '.' ((splitOnChar ',' c).getD 0 []) ++
          '.' :: (splitOnChar ',' c).getD 1 [])).getD 0
      else (pyFloat (removeChar ',' (removeChar '.' c))).getD 0) := by
  simp only [extract_price_number_chars]
  rw [if_neg h0, if_pos ⟨hd, hc⟩]

/-- Branch reduction: scorer's parser, comma without dot. -/
theorem extract_price_chars_comma (c : List Char) (h0 : ¬ c = [])
    (hd : '.' ∉ c) (hc : ',' ∈ c) :
    extract_price_chars c =
      (if c.count ',' = 1 ∧ ((splitOnChar ',' c).getD 1 []).length ≤ 2 then
        (pyFloat (commaToDot c)).getD 0
      else (pyFloat (removeChar ',' c)).getD 0) := by
  simp only [extract_price_chars]
  rw [if_neg h0, if_neg (fun hand => hd hand.2), if_pos hc]

/-- Branch reduction: scorer's parser, dot without comma. -/
theorem extract_price_chars_dot (c : List Char) (h0 : ¬ c = [])
    (hd : '.' ∈ c) (hc : ',' ∉ c) :
    extract_price_chars c =
      (if c.count '.' = 1 ∧ ((splitOnChar '.' c).getD 1 []).length ≤ 2 then
        (pyFloat c).getD 0
      else (pyFloat (removeChar '.' c)).getD 0) := by
  simp only [extract_price_chars]
  rw [if_neg h0, if_neg (fun hand => hc hand.1), if_neg hc, if_pos hd]

/-- Branch reduction: scorer's parser, no separators. -/
theorem extract_price_chars_plain (c : List Char) (h0 : ¬ c = [])
    (hd : '.' ∉ c) (hc : ',' ∉ c) :
    extract_price_chars c = (pyFloat c).getD 0 := by
  simp only [extract_price_chars]
  rw [if_neg h0, if_neg (fun hand => hc hand.1), if_neg hc, if_neg hd]

/-- Branch reduction: cleaner's parser, dot without comma, single dot. -/
theorem extract_price_number_chars_dot1 (c : List Char) (h0 : ¬ c = [])
    (hd : '.' ∈ c) (hc : ',' ∉ c) (hcnt : c.count '.' = 1) :
    extract_price_number_chars c =
      (if ((splitOnChar '.' c).getD 1 []).length ≤ 2 then
        (pyFloat c).getD 0
      else (pyFloat (removeChar '.' c)).getD 0) := by
  simp only [extract_price_number_chars]
  rw [if_neg h0, if_neg (fun hand => hc hand.2), if_pos ⟨hd, hcnt⟩]

/-- A list containing a dot is not all digits. -/
theorem not_all_digits_of_dot (c : List Char) (hd : '.' ∈ c) :
    ¬ c.all Char.isDigit = true := by
  intro hall
  have := List.all_eq_true.mp hall '.' hd
  simp at this

/-- Branch reduction: cleaner's parser, dot without comma, several dots. -/
theorem extract_price_number_chars_dotMany (c : List Char) (h0 : ¬ c = [])
    (hd : '.' ∈ c) (hc : ',' ∉ c) (hcnt : ¬ c.count '.' = 1) :
    extract_price_number_chars c =
      (if removeChar '.' c ≠ [] ∧ (removeChar '.' c).all Char.isDigit then
        (pyFloat (removeChar '.' c)).getD 0
      else firstNumberOr0 c) := by
  simp only [extract_price_number_chars]
  rw [if_neg h0, if_neg (fun hand => hc hand.2), if_neg (fun hand => hcnt hand.2),
    if_neg (fun hand => hc hand.1), if_neg (not_all_digits_of_dot c hd), if_pos hd]

/-- Branch reduction: cleaner's parser, Spanish decimal comma shape. -/
theorem extract_price_number_chars_comma1 (c : List Char) (h0 : ¬ c = [])
    (hd : '.' ∉ c) (hc : ',' ∈ c) (hcnt : c.count ',' = 1)
    (htail : ((splitOnChar ',' c).getD 1 []).length ≤ 2) :
    extract_price_number_chars c = (pyFloat (commaToDot c)).getD 0 := by
  simp only [extract_price_number_chars]
  rw [if_neg h0, if_neg (fun hand => hd hand.1), if_neg (fun hand => hd hand.1),
    if_pos ⟨hc, hcnt⟩, if_pos htail]

/-- A cleaned list without separators is all digits. -/
theorem all_digits_of_plain (c : List Char) (hkeep : ∀ x ∈ c, keepNumChar x = true)
    (hd : '.' ∉ c) (hc : ',' ∉ c) : c.all Char.isDigit = true := by
  rw [List.all_eq_true]
  intro x hx
  have hk := hkeep x hx
  have hxd : x ≠ '.' := fun he => hd (he ▸ hx)
  have hxc : x ≠ ',' := fun he => hc (he ▸ hx)
  simpa [keepNumChar, hxd, hxc] using hk

/-- Branch reduction: cleaner's parser, no separators. -/
theorem extract_price_number_chars_plain (c : List Char) (h0 : ¬ c = [])
    (hkeep : ∀ x ∈ c, keepNumChar x = true) (hd : '.' ∉ c) (hc : ',' ∉ c) :
    extract_price_number_chars c = (pyFloat c).getD 0 := by
  simp only [extract_price_number_chars]
  rw [if_neg h0, if_neg (fun hand => hd hand.1), if_neg (fun hand => hd hand.1),
    if_neg (fun hand => hc hand.1), if_pos (all_digits_of_plain c hkeep hd hc)]

/-- On the agreement domain the two cleaned-character parsers coincide. -/
theorem extract_chars_agree (c : List Char) (hkeep : ∀ x ∈ c, keepNumChar x = true)
    (hcond : agreeCond c) :
    extract_price_chars c = extract_price_number_chars c := by
  by_cases h0 : c = []
  · simp [extract_price_chars, extract_price_number_chars, h0]
  · by_cases hdot : '.' ∈ c
    · by_cases hcom : ',' ∈ c
      · rw [extract_price_chars_both c h0 hdot hcom,
          extract_price_number_chars_both c h0 hdot hcom]
      · by_cases hcnt : c.count '.' = 1
        · rw [extract_price_chars_dot c h0 hdot hcom,
            extract_price_number_chars_dot1 c h0 hdot hcom hcnt]
          by_cases htail : ((splitOnChar '.' c).getD 1 []).length ≤ 2
          · rw [if_pos ⟨hcnt, htail⟩, if_pos htail]
          · rw [if_neg (fun hand => htail hand.2), if_neg htail]
        · rw [extract_price_chars_dot c h0 hdot hcom,
            extract_price_number_chars_dotMany c h0 hdot hcom hcnt,
            if_neg (fun hand => hcnt hand.1)]
          by_cases hns : removeChar '.' c = []
          · rw [if_neg (fun hand => hand.1 hns)]
            have hnd : ∀ x ∈ c, ¬ x.isDigit = true := by
              intro x hx
              by_cases hx' : x = '.'
              · subst hx'; decide
              · exfalso
                have hmem : x ∈ removeChar '.' c :=
                  List.mem_filter.mpr ⟨hx, by simpa using hx'⟩
                rw [hns] at hmem
                simp at hmem
            rw [hns, firstNumberOr0_zero_of_noDigit c hnd,
              pyFloat_none_of_noDigit [] (by simp)]
            rfl
          · have hall : (removeChar '.' c).all Char.isDigit = true := by
              rw [List.all_eq_true]
              intro x hx
              have hxc : x ∈ c := List.mem_of_mem_filter hx
              have hxd : x ≠ '.' := by
                have := (List.mem_filter.mp hx).2
                simpa using this
              have hxcom : x ≠ ',' := fun he => hcom (he ▸ hxc)
              simpa [keepNumChar, hxd, hxcom] using hkeep x hxc
            rw [if_pos ⟨hns, hall⟩]
    · by_cases hcom : ',' ∈ c
      · rcases hcond with hcd | hncom | ⟨hcnt, htail⟩
        · exact absurd hcd hdot
        · exact absurd hcom hncom
        · rw [extract_price_chars_comma c h0 hdot hcom,
            extract_price_number_chars_comma1 c h0 hdot hcom hcnt htail,
            if_pos ⟨hcnt, htail⟩]
      · rw [extract_price_chars_plain c h0 hdot hcom,
          extract_price_number_chars_plain c h0 hkeep hdot hcom]

/-- C4 counterexample: on "1,234" (one comma, 3-digit tail) the deal scorer's
extractor strips the comma (1234.0) while the cleaner's falls back to the
first digit run (1.0): the two embeddings of the "shared" parsing algorithm
disagree. -/
theorem price_extractors_disagree :
    extract_price (some "1,234") = 1234 ∧
    extract_price_number (some "1,234") = 1 ∧ (1234 : ℚ) ≠ 1 :=
  ⟨by decide, by decide, by decide⟩

/-- C4 (amended): the two price extractors agree on every input whose cleaned
form (digits, dots, commas) contains a dot, or contains no comma, or is the
Spanish decimal shape (exactly one comma with a tail of at most two
characters).  They diverge only on dot-free inputs with a comma in any other
shape, where the cleaner's parser falls back to the first digit run. -/
theorem price_extractors_agree (s : String) (h : agreeCond (cleanNum s.toList)) :
    extract_price (some s) = extract_price_number (some s) := by
  by_cases hs : s = ""
  · simp [extract_price, extract_price_number, hs]
  · show (if s = "" then 0 else extract_price_chars (cleanNum s.toList)) =
      (if s = "" then 0 else extract_price_number_chars (cleanNum s.toList))
    rw [if_neg hs, if_neg hs]
    exact extract_chars_agree _ (fun x hx => List.of_mem_filter hx) h

/-- C4 witness: both parsers give 12500.90 on the Spanish-format price. -/
theorem price_extractors_agree_witness :
    extract_price (some "12.500,90€") = extract_price_number (some "12.500,90€") :=
  price_extractors_agree "12.500,90€" (by decide)

